import Mathlib

/-!
Shallow embedding of the synthetic-data generator in
`ML Models/data_generation.py` of the Predictive-Maintenance repository.

Numeric modelling conventions:
* Python floats are modelled as exact rationals (`ℚ`).
* Every call into a pseudorandom source is modelled as the consumption of an
  explicit draw.  Draws of NumPy's seeded generator (`np.random.*`) and of the
  *unseeded* Python `random` module are kept in separate streams, which is what
  the determinism claim is about.  Integer draws `random.randint(a, b)`
  (inclusive bounds) are modelled by mapping a raw natural draw `d` into the
  interval as `a + d % (b + 1 - a)`; real draws (`random.uniform`,
  `np.random.normal`) are modelled as directly drawn rationals.
* The pandas dataframe is modelled column-wise: a column is a function
  `ℕ → ℚ` from the row index, and the 0/1 column `is_anomaly` is modelled as
  the `Finset ℕ` of indices holding 1.
-/

namespace PredMaint

/-- Python `int(q)` on a rational: truncation toward zero. -/
def intTrunc (q : ℚ) : ℤ := if q < 0 then ⌈q⌉ else ⌊q⌋

/-- `random.randint(lo, hi)` (both bounds inclusive), fed by a raw draw `d`:
the draw is reduced into the interval `[lo, hi]`.  (Python raises `ValueError`
when `hi < lo`; all uses below are guarded by side conditions making
`lo ≤ hi`.) -/
def randint (lo hi d : ℕ) : ℕ := lo + d % (hi + 1 - lo)

/-- The `total_machine_hours` column of `generate_normal_data`:
`cumulative_hours` starts at 5000 and is incremented by 1 *before* being
stored at each row, so row 0 stores 5001. -/
def total_machine_hours_at : ℕ → ℚ
  | 0 => 5001
  | i + 1 => total_machine_hours_at i + 1

/-- The `machine_hours_today` column: `random.uniform(6, 15)` is redrawn
whenever the calendar day changes.  The run starts 2025-01-01 00:00 with
hourly rows, so the day changes exactly at row indices that are positive
multiples of 24; hence row `i` holds the draw for day `i / 24`.  `u` is the
stream of (unseeded) `random.uniform(6, 15)` draws, one per day. -/
def machine_hours_today_at (u : ℕ → ℚ) (i : ℕ) : ℚ := u (i / 24)

/-- The `tool_usage_min` column of `generate_normal_data`: starts at 0; at
each later row, if the previous value exceeds 4000 it resets to 0, otherwise
it grows by a `random.uniform(10, 20)` draw.  `u i` is the (unseeded) uniform
draw available at row `i`. -/
def tool_usage_at (u : ℕ → ℚ) : ℕ → ℚ
  | 0 => 0
  | i + 1 => if tool_usage_at u i > 4000 then 0 else tool_usage_at u i + u (i + 1)

/-- The three pre-selected maintenance checkpoints of
`generate_health_and_maintenance`: for `i ∈ {1,2,3}`,
`day = i*30 + random.randint(-5, 5)` and `hour = random.randint(0, 23)`,
giving the tick `day*24 + hour`.  `randint(-5, 5)` is modelled as
`-5 + d % 11`, folded into the constant (`i*30 - 5`); `r` is the list of the
six raw draws, consumed in program order. -/
def maintenance_points (r : List ℕ) : List ℕ :=
  [(30 - 5 + r.getD 0 0 % 11) * 24 + r.getD 1 0 % 24,
   (60 - 5 + r.getD 2 0 % 11) * 24 + r.getD 3 0 % 24,
   (90 - 5 + r.getD 4 0 % 11) * 24 + r.getD 5 0 % 24]

/-- The per-tick health recurrence of `generate_health_and_maintenance`,
giving the value stored in `machine_health_score` at row `i` (before the
final noise pass).  At row `i+1` the carried health decays by
`0.02 * (1 + (total[i+1] - total[i]) / 1000)` and is floored at 20; the carry
out of row `i` is reset to 100.0 when `i` is a maintenance checkpoint (the
reset therefore shows up from row `i+1` on, while the stored value at row `i`
is the pre-reset value). -/
def health_at (mp : List ℕ) (tmh : ℕ → ℚ) : ℕ → ℚ
  | 0 => 100
  | i + 1 =>
      max 20 ((if i ∈ mp then (100 : ℚ) else health_at mp tmh i) -
        0.02 * (1 + (tmh (i + 1) - tmh i) / 1000))

/-- The `days_to_maintenance` step function computed from the current health
value: `>80 → 30`, `>60 → 20`, `>40 → 10`, else `max(0, int(health / 10))`. -/
def step_days (h : ℚ) : ℤ :=
  if h > 80 then 30
  else if h > 60 then 20
  else if h > 40 then 10
  else max 0 (intTrunc (h / 10))

/-- The stored `days_to_maintenance` at row `i`: the step function of the
pre-reset health, overwritten with 30 when `i` is a maintenance checkpoint. -/
def days_at (mp : List ℕ) (tmh : ℕ → ℚ) (i : ℕ) : ℤ :=
  if i ∈ mp then 30 else step_days (health_at mp tmh i)

/-- `np.clip(x, 0, 100)`. -/
def clip01 (x : ℚ) : ℚ := max 0 (min 100 x)

/-- One entry of the `anomaly_types` catalog: the per-metric multiplier table
(only sensor columns appear in it) plus the two meta parameters. -/
structure AnomalyConfig where
  multipliers : List (String × ℚ)
  severity_impact : ℚ
  progression_rate : ℚ

/-- The fixed `anomaly_types` catalog of the source, in definition order. -/
def anomaly_catalog : List AnomalyConfig :=
  [⟨[("vibration_rms", 1.5), ("cutting_force_N", 1.3), ("acoustic_level_dB", 1.2),
     ("tool_usage_min", 1.0)], 0.7, 1.2⟩,
   ⟨[("vibration_rms", 2.5), ("cutting_force_N", 0.7), ("acoustic_level_dB", 1.5),
     ("spindle_current_A", 1.3)], 0.9, 1.8⟩,
   ⟨[("motor_temp_C", 1.4), ("power_consumption_W", 1.2), ("spindle_current_A", 1.15)],
     0.8, 1.0⟩,
   ⟨[("coolant_temp_C", 1.5), ("motor_temp_C", 1.2)], 0.85, 1.5⟩,
   ⟨[("power_consumption_W", 1.3), ("spindle_current_A", 0.85), ("rpm", 0.9)],
     0.75, 0.8⟩]

/-- State threaded through `introduce_anomalies`: the set of rows whose
`is_anomaly` is 1, the `machine_health_score` column, the list of placed
episodes (start, length) in placement order, the remaining unseeded `random`
draws, and the remaining NumPy severity-noise draws. -/
structure InjState where
  marked : Finset ℕ
  health : ℕ → ℚ
  placed : List (ℕ × ℕ)
  rand : List ℕ
  noise : List ℚ

/-- Point update of a dataframe column (`df.loc[pos, col] = v`). -/
def setCol (f : ℕ → ℚ) (p : ℕ) (v : ℚ) : ℕ → ℚ :=
  fun t => if t = p then v else f t

/-- The rejection test of the placement loop:
`any(df.iloc[max(0, start-48) : min(len(df), start+L+48)]['is_anomaly'] > 0)`,
i.e. some already-marked row lies in the candidate window expanded by 48 rows
on each side. -/
def overlap_check (n : ℕ) (marked : Finset ℕ) (s L : ℕ) : Bool :=
  decide ((Finset.Ico (s - 48) (min n (s + L + 48)) ∩ marked).Nonempty)

/-- The placement loop for one episode: draw
`start_pos = random.randint(48, n - L - 48)` and keep redrawing while the
overlap test fires.  The source's `while` loop has no retry cap; here it
consumes the draw stream and `none` means the stream was exhausted with every
draw rejected (the source would still be looping at that point). -/
def find_start (n L : ℕ) (marked : Finset ℕ) : List ℕ → Option (ℕ × List ℕ)
  | [] => none
  | d :: rest =>
      let s := randint 48 (n - L - 48) d
      if overlap_check n marked s L then find_start n L marked rest
      else some (s, rest)

/-- `severity = max(0.1, min(1.0, (i / L) * progression_rate + N(0, 0.05)))`
for the `i`-th tick of an episode of length `L`; `z` is the noise draw. -/
def severity_at (prog : ℚ) (L i : ℕ) (z : ℚ) : ℚ :=
  max 0.1 (min 1.0 ((i : ℚ) / (L : ℚ) * prog + z))

/-- The inner `for i in range(seq_length)` loop of `introduce_anomalies`,
processing `k` remaining ticks starting at episode offset `i`: each tick at
`pos = s + i` is marked anomalous and its health is clamped as
`max(0, min(100, health + (-50 * severity * severity_impact)))`.  The write
of the `anomaly_severity` column and the multiplicative perturbation of the
sensor metrics listed in `multipliers` act only on columns no claim refers
to and are not tracked in this state. -/
def run_ticks (impact prog : ℚ) (s L : ℕ) : ℕ → ℕ → InjState → InjState
  | _, 0, st => st
  | i, k + 1, st =>
      let z := st.noise.headD 0
      let pos := s + i
      let sev := severity_at prog L i z
      run_ticks impact prog s L (i + 1) k
        { st with
          marked := insert pos st.marked,
          health := setCol st.health pos
            (max 0 (min 100 (st.health pos + (-50) * sev * impact))),
          noise := st.noise.tail }

/-- The state after one placed episode: the anomaly type was picked by a
uniform `random.choice` over the five catalog keys (the head draw, reduced
mod 5), the episode's ticks are processed, and the placement is recorded. -/
def place_episode (L s : ℕ) (r2 : List ℕ) (st : InjState) : InjState :=
  let cfg := anomaly_catalog.getD (st.rand.headD 0 % anomaly_catalog.length) ⟨[], 0, 0⟩
  let st1 := run_ticks cfg.severity_impact cfg.progression_rate s L 0 L
    { st with rand := r2 }
  { st1 with placed := st1.placed ++ [(s, L)] }

/-- The per-episode loop of `introduce_anomalies`: for each episode length,
pick the type, run the placement loop, then inject the episode. -/
def inject_episodes (n : ℕ) : List ℕ → InjState → Option InjState
  | [], st => some st
  | L :: rest, st =>
      match find_start n L st.marked st.rand.tail with
      | none => none
      | some (s, r2) => inject_episodes n rest (place_episode L s r2 st)

/-- The budget-partition loop of `introduce_anomalies`:
`while remaining_hours > 0: seq = min(random.randint(6, 48), remaining)`.
The draw `randint(6, 48)` is modelled as `6 + d % 43`; `none` means the draw
stream ran out before the budget was consumed. -/
def build_sequences : List ℕ → ℤ → Option (List ℕ × List ℕ)
  | rand, remaining =>
    match rand with
    | [] => if remaining ≤ 0 then some ([], []) else none
    | d :: r =>
        if remaining ≤ 0 then some ([], d :: r)
        else
          match build_sequences r (remaining - min (6 + (d % 43 : ℕ) : ℤ) remaining) with
          | none => none
          | some (seqs, rest) =>
              some ((min (6 + (d % 43 : ℕ) : ℤ) remaining).toNat :: seqs, rest)

/-- `random.shuffle(sequences)`: a draw-driven permutation of the list
(selection shuffle: each step removes the element at a drawn index).  The
claims below depend on the shuffle only through its being a permutation. -/
def shuffle_sel : List ℕ → List ℕ → List ℕ × List ℕ
  | rand, [] => ([], rand)
  | [], xs => (xs, [])
  | d :: ds, x :: xs =>
      let i := d % (x :: xs).length
      let p := shuffle_sel ds ((x :: xs).eraseIdx i)
      ((x :: xs).getD i 0 :: p.1, p.2)

/-- The body of `introduce_anomalies` once the anomaly-hour budget is fixed:
the budget is partitioned into episode lengths, the (dead in practice)
empty-partition fallback `[12]` is applied, the episode list is shuffled, and
the episodes are injected into the table whose health column is `health0`. -/
def introduce_anomalies_core (n : ℕ) (budget : ℤ) (rand : List ℕ) (noise : List ℚ)
    (health0 : ℕ → ℚ) : Option InjState :=
  match build_sequences rand budget with
  | none => none
  | some (seqs0, r1) =>
      let seqs1 := if seqs0 = [] then [12] else seqs0
      let sh := shuffle_sel r1 seqs1
      inject_episodes n sh.1 ⟨∅, health0, [], sh.2, noise⟩

/-- `introduce_anomalies(df, anomaly_percentage)`:
`total_anomaly_hours = int(n * pct)`, bumped to 12 when it is 0, then the
budget-driven core. -/
def introduce_anomalies (n : ℕ) (pct : ℚ) (rand : List ℕ) (noise : List ℚ)
    (health0 : ℕ → ℚ) : Option InjState :=
  introduce_anomalies_core n
    (if intTrunc ((n : ℚ) * pct) = 0 then 12 else intTrunc ((n : ℚ) * pct))
    rand noise health0

/-- The columns of the final table that the claims refer to. -/
structure Dataset where
  total_machine_hours : ℕ → ℚ
  machine_hours_today : ℕ → ℚ
  tool_usage_min : ℕ → ℚ
  health_pre_noise : ℕ → ℚ
  machine_health_score : ℕ → ℚ
  days_to_maintenance : ℕ → ℤ
  marked : Finset ℕ
  placed : List (ℕ × ℕ)

/-- The full generator pipeline on the columns the claims are about:
baseline counters, the health-and-maintenance pass, the global
`np.random.normal(0, 1)` noise pass clipped to `[0, 100]`, and the anomaly
injector.  `mpD` are the unseeded draws selecting the maintenance
checkpoints, `dayD`/`toolD` the unseeded daily-hours and tool-usage uniform
draws, `hNoise` the seeded NumPy health-noise draws, `rand` the unseeded
integer draws of the injector, and `sevNoise` the seeded NumPy
severity-noise draws. -/
def generate_dataset (n : ℕ) (pct : ℚ) (mpD : List ℕ) (dayD toolD hNoise : ℕ → ℚ)
    (rand : List ℕ) (sevNoise : List ℚ) : Option Dataset :=
  let mp := maintenance_points mpD
  let pre := health_at mp total_machine_hours_at
  match introduce_anomalies n pct rand sevNoise
      (fun i => clip01 (pre i + hNoise i)) with
  | none => none
  | some st =>
      some
        { total_machine_hours := total_machine_hours_at,
          machine_hours_today := machine_hours_today_at dayD,
          tool_usage_min := tool_usage_at toolD,
          health_pre_noise := pre,
          machine_health_score := st.health,
          days_to_maintenance := days_at mp total_machine_hours_at,
          marked := st.marked,
          placed := st.placed }

/-- Concrete run A: 144 rows, anomaly percentage 0 (so the 12-tick minimum
budget applies), zero NumPy noise, constant unseeded uniform draws; the raw
integer draws place a single 12-tick episode at row 48. -/
def sample_run_A : Option Dataset :=
  generate_dataset 144 0 [0, 0, 0, 0, 0, 0] (fun _ => 10) (fun _ => 10) (fun _ => 0)
    [6, 0, 0, 0] []

/-- Concrete run A with the tool-usage uniform draws changed from 10 to 20;
every other input, including everything derived from the NumPy seed, is
identical to run A. -/
def sample_run_A20 : Option Dataset :=
  generate_dataset 144 0 [0, 0, 0, 0, 0, 0] (fun _ => 10) (fun _ => 20) (fun _ => 0)
    [6, 0, 0, 0] []

/-- Concrete run B: 300 rows, anomaly percentage 7/300 (budget 7), placing
two episodes (lengths 6 and 1) at rows 48 and 102. -/
def sample_run_B : Option Dataset :=
  generate_dataset 300 (7 / 300) [0, 0, 0, 0, 0, 0] (fun _ => 10) (fun _ => 10)
    (fun _ => 0) [0, 0, 0, 0, 0, 0, 0, 54] []

/-- Concrete run C: 600 rows at anomaly percentage 1/100, so the percentage
budget is 6: below the claimed minimum of 12. -/
def sample_run_C : Option Dataset :=
  generate_dataset 600 (1 / 100) [0, 0, 0, 0, 0, 0] (fun _ => 10) (fun _ => 10)
    (fun _ => 0) [0, 0, 0, 0] []

/-- Concrete run D: 150 rows, percentage 0, with a single NumPy health-noise
draw of −25 at row 1 (a legal draw of `np.random.normal(0, 1)`). -/
def sample_run_D : Option Dataset :=
  generate_dataset 150 0 [0, 0, 0, 0, 0, 0] (fun _ => 10) (fun _ => 10)
    (fun i => if i = 1 then (-25 : ℚ) else 0) [6, 0, 0, 0] []

/-- Concrete run E: 720 rows (30 days), percentage 0, zero noise; long enough
to contain the first maintenance checkpoint at row 600. -/
def sample_run_E : Option Dataset :=
  generate_dataset 720 0 [0, 0, 0, 0, 0, 0] (fun _ => 10) (fun _ => 10) (fun _ => 0)
    [6, 0, 0, 0] []

/-- Two distinct anomaly episodes are separated by at least 48 rows on both
sides: the later core starts at least 48 rows after the earlier one ends. -/
def EpisodeSep (p q : ℕ × ℕ) : Prop :=
  p.1 + p.2 + 48 ≤ q.1 ∨ q.1 + q.2 + 48 ≤ p.1

/-- Invariant maintained by the injector state. -/
structure Inv (n : ℕ) (st : InjState) : Prop where
  subset : ∀ t ∈ st.marked, t < n
  card_eq : st.marked.card = (st.placed.map Prod.snd).sum
  range : ∀ p ∈ st.placed, 48 ≤ p.1 ∧ p.1 + p.2 ≤ n
  len_pos : ∀ p ∈ st.placed, 1 ≤ p.2
  sep : st.placed.Pairwise EpisodeSep
  cores : ∀ p ∈ st.placed, Finset.Ico p.1 (p.1 + p.2) ⊆ st.marked
  buffer : ∀ p ∈ st.placed, ∀ t ∈ st.marked,
    p.1 - 48 ≤ t → t < p.1 + p.2 + 48 → p.1 ≤ t ∧ t < p.1 + p.2
  marked_cores : ∀ t ∈ st.marked, ∃ p ∈ st.placed, p.1 ≤ t ∧ t < p.1 + p.2
  health01 : ∀ i, 0 ≤ st.health i ∧ st.health i ≤ 100

/-! ## Basic lemmas -/

theorem randint_bounds (lo hi d : ℕ) (h : lo ≤ hi) :
    lo ≤ randint lo hi d ∧ randint lo hi d ≤ hi := by
  have hpos : 0 < hi + 1 - lo := by omega
  have := Nat.mod_lt d hpos
  unfold randint
  omega

theorem total_machine_hours_succ (i : ℕ) :
    total_machine_hours_at (i + 1) = total_machine_hours_at i + 1 := rfl

theorem total_machine_hours_closed (i : ℕ) :
    total_machine_hours_at i = 5001 + (i : ℚ) := by
  induction i with
  | zero => simp [total_machine_hours_at]
  | succ i ih =>
      rw [total_machine_hours_succ, ih]
      push_cast
      ring

/-- With the actual `total_machine_hours` column the per-tick decay is the
constant `0.02 * (1 + 1/1000) = 1001/50000`. -/
theorem health_at_succ (mp : List ℕ) (i : ℕ) :
    health_at mp total_machine_hours_at (i + 1) =
      max 20 ((if i ∈ mp then (100 : ℚ) else health_at mp total_machine_hours_at i) -
        1001 / 50000) := by
  have hd : total_machine_hours_at (i + 1) - total_machine_hours_at i = 1 := by
    rw [total_machine_hours_succ]; ring
  rw [health_at, hd]
  norm_num

theorem health_at_le_100 (mp : List ℕ) (i : ℕ) :
    health_at mp total_machine_hours_at i ≤ 100 := by
  induction i with
  | zero => simp [health_at]
  | succ i ih =>
      rw [health_at_succ]
      rcases le_or_lt (20 : ℚ) ((if i ∈ mp then (100 : ℚ) else
          health_at mp total_machine_hours_at i) - 1001 / 50000) with hc | hc
      · rw [max_eq_right hc]
        split <;> [norm_num; linarith]
      · rw [max_eq_left hc.le]; norm_num

theorem health_at_lt_100 (mp : List ℕ) (i : ℕ) :
    health_at mp total_machine_hours_at (i + 1) < 100 := by
  rw [health_at_succ]
  have h1 : (if i ∈ mp then (100 : ℚ) else health_at mp total_machine_hours_at i) ≤ 100 := by
    split <;> [norm_num; exact health_at_le_100 mp i]
  exact max_lt (by norm_num) (by linarith)

/-- Closed form of the health pass before the first reachable checkpoint and
before the floor at 20 kicks in. -/
theorem health_at_closed (mp : List ℕ) :
    ∀ i : ℕ, (∀ j, j < i → j ∉ mp) → (i : ℚ) * (1001 / 50000) ≤ 80 →
      health_at mp total_machine_hours_at i = 100 - (i : ℚ) * (1001 / 50000) := by
  intro i
  induction i with
  | zero => intro _ _; simp [health_at]
  | succ i ih =>
      intro hmp hb
      have hii : i ∉ mp := hmp i (Nat.lt_succ_self i)
      have hb2 : (i : ℚ) * (1001 / 50000) + 1001 / 50000 ≤ 80 := by
        push_cast at hb
        linarith
      have hb' : (i : ℚ) * (1001 / 50000) ≤ 80 := by linarith
      have hrec := ih (fun j hj => hmp j (Nat.lt_succ_of_lt hj)) hb'
      rw [health_at_succ, if_neg hii, hrec]
      have hcast : ((i + 1 : ℕ) : ℚ) = (i : ℚ) + 1 := by push_cast; ring
      rw [hcast] at hb ⊢
      rw [max_eq_right (by linarith)]
      ring

theorem maintenance_points_ge_600 (r : List ℕ) :
    ∀ t ∈ maintenance_points r, 600 ≤ t := by
  intro t ht
  simp only [maintenance_points, List.mem_cons, List.not_mem_nil, or_false] at ht
  rcases ht with rfl | rfl | rfl <;> omega

theorem clip01_mem (x : ℚ) : 0 ≤ clip01 x ∧ clip01 x ≤ 100 := by
  unfold clip01
  constructor
  · exact le_max_left 0 _
  · exact max_le (by norm_num) (min_le_left _ _)

/-! ## Budget partition and shuffle -/

theorem build_sequences_spec :
    ∀ (rand : List ℕ) (remaining : ℤ) (seqs rest : List ℕ), 0 ≤ remaining →
      build_sequences rand remaining = some (seqs, rest) →
      (seqs.sum : ℤ) = remaining ∧ ∀ L ∈ seqs, 1 ≤ L ∧ L ≤ 48 := by
  intro rand
  induction rand with
  | nil =>
      intro remaining seqs rest h0 h
      rw [build_sequences] at h
      split at h
      · simp only [Option.some.injEq, Prod.mk.injEq] at h
        obtain ⟨rfl, rfl⟩ := h
        refine ⟨?_, by simp⟩
        simp only [List.sum_nil, Nat.cast_zero]
        omega
      · exact absurd h (by simp)
  | cons d r ih =>
      intro remaining seqs rest h0 h
      rw [build_sequences] at h
      split at h
      · rename_i hrem
        simp only [Option.some.injEq, Prod.mk.injEq] at h
        obtain ⟨rfl, rfl⟩ := h
        refine ⟨?_, by simp⟩
        simp only [List.sum_nil, Nat.cast_zero]
        omega
      · rename_i hrem
        have hrem1 : 1 ≤ remaining := by omega
        have hmod : (d % 43 : ℕ) < 43 := Nat.mod_lt d (by norm_num)
        have hL1 : 1 ≤ min (6 + (d % 43 : ℕ) : ℤ) remaining := le_min (by omega) hrem1
        have hL48 : min (6 + (d % 43 : ℕ) : ℤ) remaining ≤ 48 :=
          le_trans (min_le_left _ _) (by omega)
        have hLrem : min (6 + (d % 43 : ℕ) : ℤ) remaining ≤ remaining := min_le_right _ _
        cases hrec : build_sequences r (remaining - min (6 + (d % 43 : ℕ) : ℤ) remaining) with
        | none => rw [hrec] at h; exact absurd h (by simp)
        | some p =>
            obtain ⟨seqs', rest'⟩ := p
            rw [hrec] at h
            simp only [Option.some.injEq, Prod.mk.injEq] at h
            obtain ⟨rfl, rfl⟩ := h
            obtain ⟨hsum, hmem⟩ := ih _ seqs' rest' (by omega) hrec
            constructor
            · simp only [List.sum_cons, Nat.cast_add]
              rw [hsum, Int.toNat_of_nonneg (by omega)]
              ring
            · intro x hx
              rcases List.mem_cons.mp hx with rfl | hx'
              · omega
              · exact hmem x hx'

theorem shuffle_sel_perm : ∀ (ds xs : List ℕ), (shuffle_sel ds xs).1.Perm xs := by
  intro ds
  induction ds with
  | nil =>
      intro xs
      cases xs <;> simp [shuffle_sel]
  | cons d ds ih =>
      intro xs
      cases xs with
      | nil => simp [shuffle_sel]
      | cons x xs' =>
          simp only [shuffle_sel]
          have hlen : d % (x :: xs').length < (x :: xs').length :=
            Nat.mod_lt d (by simp)
          rw [List.getD_eq_getElem (x :: xs') 0 hlen]
          refine List.Perm.trans (List.Perm.cons _ (ih _)) ?_
          refine List.Perm.trans (List.Perm.cons _ (List.erase_getElem hlen).symm) ?_
          exact (List.perm_cons_erase (List.getElem_mem hlen)).symm

/-! ## The episode loop -/

theorem run_ticks_marked (impact prog : ℚ) (s L : ℕ) :
    ∀ (k i : ℕ) (st : InjState),
      (run_ticks impact prog s L i k st).marked =
        st.marked ∪ Finset.Ico (s + i) (s + i + k) := by
  intro k
  induction k with
  | zero => intro i st; simp [run_ticks]
  | succ k ih =>
      intro i st
      rw [run_ticks, ih]
      ext t
      simp only [Finset.mem_union, Finset.mem_insert, Finset.mem_Ico]
      by_cases hm : t ∈ st.marked <;> simp [hm] <;> try omega

theorem run_ticks_placed (impact prog : ℚ) (s L : ℕ) :
    ∀ (k i : ℕ) (st : InjState), (run_ticks impact prog s L i k st).placed = st.placed := by
  intro k
  induction k with
  | zero => intro i st; simp [run_ticks]
  | succ k ih => intro i st; rw [run_ticks, ih]

theorem run_ticks_rand (impact prog : ℚ) (s L : ℕ) :
    ∀ (k i : ℕ) (st : InjState), (run_ticks impact prog s L i k st).rand = st.rand := by
  intro k
  induction k with
  | zero => intro i st; simp [run_ticks]
  | succ k ih => intro i st; rw [run_ticks, ih]

theorem run_ticks_health01 (impact prog : ℚ) (s L : ℕ) :
    ∀ (k i : ℕ) (st : InjState), (∀ j, 0 ≤ st.health j ∧ st.health j ≤ 100) →
      ∀ j, 0 ≤ (run_ticks impact prog s L i k st).health j ∧
        (run_ticks impact prog s L i k st).health j ≤ 100 := by
  intro k
  induction k with
  | zero => intro i st h j; simpa [run_ticks] using h j
  | succ k ih =>
      intro i st h j
      rw [run_ticks]
      refine ih (i + 1) _ ?_ j
      intro m
      simp only [setCol]
      split
      · exact ⟨le_max_left 0 _, max_le (by norm_num) (min_le_left _ _)⟩
      · exact h m

theorem place_episode_marked (L s : ℕ) (r2 : List ℕ) (st : InjState) :
    (place_episode L s r2 st).marked = st.marked ∪ Finset.Ico s (s + L) := by
  simp [place_episode, run_ticks_marked]

theorem place_episode_placed (L s : ℕ) (r2 : List ℕ) (st : InjState) :
    (place_episode L s r2 st).placed = st.placed ++ [(s, L)] := by
  simp [place_episode, run_ticks_placed]

theorem place_episode_health01 (L s : ℕ) (r2 : List ℕ) (st : InjState)
    (h : ∀ j, 0 ≤ st.health j ∧ st.health j ≤ 100) :
    ∀ j, 0 ≤ (place_episode L s r2 st).health j ∧ (place_episode L s r2 st).health j ≤ 100 := by
  intro j
  simp only [place_episode]
  exact run_ticks_health01 _ _ s L L 0 { st with rand := r2 } (fun m => h m) j

theorem find_start_spec (n L : ℕ) (marked : Finset ℕ) :
    ∀ (draws rest : List ℕ) (s : ℕ),
      find_start n L marked draws = some (s, rest) →
      overlap_check n marked s L = false ∧ ∃ d, s = randint 48 (n - L - 48) d := by
  intro draws
  induction draws with
  | nil => intro rest s h; exact absurd h (by simp [find_start])
  | cons d ds ih =>
      intro rest s h
      rw [find_start] at h
      split at h
      · exact ih rest s h
      · rename_i hov
        simp only [Option.some.injEq, Prod.mk.injEq] at h
        obtain ⟨rfl, rfl⟩ := h
        exact ⟨Bool.not_eq_true _ ▸ by simpa using hov, d, rfl⟩

/-- Unpacking a failed overlap test: every already-marked row (all of which
lie below `n`) avoids the candidate window expanded by 48 on each side. -/
theorem overlap_check_false (n : ℕ) (marked : Finset ℕ) (s L : ℕ)
    (hsub : ∀ t ∈ marked, t < n)
    (h : overlap_check n marked s L = false) :
    ∀ t ∈ marked, t < s - 48 ∨ s + L + 48 ≤ t := by
  intro t ht
  by_contra hcon
  push_neg at hcon
  have hmem : t ∈ Finset.Ico (s - 48) (min n (s + L + 48)) ∩ marked := by
    rw [Finset.mem_inter, Finset.mem_Ico]
    have := hsub t ht
    exact ⟨⟨by omega, by omega⟩, ht⟩
  have : (Finset.Ico (s - 48) (min n (s + L + 48)) ∩ marked).Nonempty := ⟨t, hmem⟩
  rw [overlap_check, decide_eq_false_iff_not] at h
  exact h this

/-- The master invariant preservation of the per-episode loop: if every
episode length is positive and leaves room for the two 48-row margins, a
successful run preserves `Inv` and appends exactly the requested lengths. -/
theorem inject_episodes_inv (n : ℕ) :
    ∀ (seqs : List ℕ) (st st' : InjState),
      (∀ L ∈ seqs, 1 ≤ L ∧ L + 96 ≤ n) → Inv n st →
      inject_episodes n seqs st = some st' →
      Inv n st' ∧ st'.placed.map Prod.snd = st.placed.map Prod.snd ++ seqs := by
  intro seqs
  induction seqs with
  | nil =>
      intro st st' _ hinv h
      rw [inject_episodes] at h
      simp only [Option.some.injEq] at h
      subst h
      exact ⟨hinv, by simp⟩
  | cons L rest ih =>
      intro st st' hseq hinv h
      rw [inject_episodes] at h
      split at h
      · exact absurd h (by simp)
      · rename_i s r2 hfs
        obtain ⟨hL1, hLn⟩ := hseq L (List.mem_cons_self L rest)
        obtain ⟨hov, d, hd⟩ := find_start_spec n L st.marked _ _ _ hfs
        have hrb := randint_bounds 48 (n - L - 48) d (by omega)
        have hs48 : 48 ≤ s := hd ▸ hrb.1
        have hsLn : s + L + 48 ≤ n := by
          have := hd ▸ hrb.2
          omega
        have key : ∀ t ∈ st.marked, t < s - 48 ∨ s + L + 48 ≤ t :=
          overlap_check_false n st.marked s L hinv.subset hov
        have hm1 : (place_episode L s r2 st).marked = st.marked ∪ Finset.Ico s (s + L) :=
          place_episode_marked L s r2 st
        have hp1 : (place_episode L s r2 st).placed = st.placed ++ [(s, L)] :=
          place_episode_placed L s r2 st
        have hdisj : Disjoint st.marked (Finset.Ico s (s + L)) := by
          rw [Finset.disjoint_left]
          intro t ht hico
          rw [Finset.mem_Ico] at hico
          rcases key t ht with hlt | hge <;> omega
        have hcross : ∀ p ∈ st.placed, EpisodeSep p (s, L) := by
          intro p hp
          have hpcore : p.1 ∈ st.marked := by
            refine hinv.cores p hp ?_
            rw [Finset.mem_Ico]
            have := hinv.len_pos p hp
            omega
          rcases key p.1 hpcore with hlt | hge
          · left
            by_contra hcon
            push_neg at hcon
            have hmem : s - 48 ∈ Finset.Ico p.1 (p.1 + p.2) := by
              rw [Finset.mem_Ico]
              simp only [EpisodeSep] at hcon ⊢
              omega
            have := hinv.cores p hp hmem
            rcases key _ this with h1 | h2 <;> omega
          · right
            exact hge
        have hinv2 : Inv n (place_episode L s r2 st) := by
          constructor
          · -- subset
            intro t ht
            rw [hm1, Finset.mem_union, Finset.mem_Ico] at ht
            rcases ht with ht | ht
            · exact hinv.subset t ht
            · omega
          · -- card_eq
            rw [hm1, hp1]
            simp only [List.map_append, List.sum_append]
            rw [Finset.card_union_of_disjoint hdisj, hinv.card_eq, Nat.card_Ico]
            simp
          · -- range
            intro p hp
            rw [hp1] at hp
            rcases List.mem_append.mp hp with hp | hp
            · exact hinv.range p hp
            · simp only [List.mem_singleton] at hp
              subst hp
              exact ⟨hs48, by omega⟩
          · -- len_pos
            intro p hp
            rw [hp1] at hp
            rcases List.mem_append.mp hp with hp | hp
            · exact hinv.len_pos p hp
            · simp only [List.mem_singleton] at hp
              subst hp
              exact hL1
          · -- sep
            rw [hp1, List.pairwise_append]
            refine ⟨hinv.sep, by simp, ?_⟩
            intro p hp q hq
            simp only [List.mem_singleton] at hq
            subst hq
            exact hcross p hp
          · -- cores
            intro p hp
            rw [hp1] at hp
            rcases List.mem_append.mp hp with hp | hp
            · exact (hinv.cores p hp).trans (by rw [hm1]; exact Finset.subset_union_left)
            · simp only [List.mem_singleton] at hp
              subst hp
              rw [hm1]
              exact Finset.subset_union_right
          · -- buffer
            intro p hp t ht hlo hhi
            rw [hp1] at hp
            rw [hm1, Finset.mem_union, Finset.mem_Ico] at ht
            rcases List.mem_append.mp hp with hp | hp
            · rcases ht with ht | ht
              · exact hinv.buffer p hp t ht hlo hhi
              · have hsep := hcross p hp
                have hp48 := (hinv.range p hp).1
                rcases hsep with h1 | h2 <;> [omega; omega]
            · simp only [List.mem_singleton] at hp
              subst hp
              simp only at hlo hhi ⊢
              rcases ht with ht | ht
              · rcases key t ht with h1 | h2 <;> omega
              · omega
          · -- marked_cores
            intro t ht
            rw [hm1, Finset.mem_union, Finset.mem_Ico] at ht
            rw [hp1]
            rcases ht with ht | ht
            · obtain ⟨p, hp, hb⟩ := hinv.marked_cores t ht
              exact ⟨p, List.mem_append.mpr (Or.inl hp), hb⟩
            · exact ⟨(s, L), List.mem_append.mpr (Or.inr (by simp)), ht⟩
          · -- health01
            exact place_episode_health01 L s r2 st (fun j => hinv.health01 j)
        obtain ⟨hinv3, hmap⟩ := ih (place_episode L s r2 st) st'
          (fun x hx => hseq x (List.mem_cons_of_mem L hx)) hinv2 h
        refine ⟨hinv3, ?_⟩
        rw [hmap, hp1]
        simp

/-! ## End-to-end injector and pipeline lemmas -/

theorem introduce_anomalies_core_spec (n : ℕ) (budget : ℤ) (rand : List ℕ)
    (noise : List ℚ) (h0 : ℕ → ℚ) (st : InjState) (hn : 144 ≤ n) (hb1 : 1 ≤ budget)
    (hh : ∀ i, 0 ≤ h0 i ∧ h0 i ≤ 100)
    (h : introduce_anomalies_core n budget rand noise h0 = some st) :
    Inv n st ∧ ((st.placed.map Prod.snd).sum : ℤ) = budget := by
  rw [introduce_anomalies_core] at h
  split at h
  · exact absurd h (by simp)
  · rename_i seqs0 r1 hbs
    obtain ⟨hsum0, hbounds0⟩ := build_sequences_spec rand budget seqs0 r1 (by omega) hbs
    have hne : seqs0 ≠ [] := by
      intro hcon
      rw [hcon] at hsum0
      simp at hsum0
      omega
    simp only [] at h
    rw [if_neg hne] at h
    have hperm := shuffle_sel_perm r1 seqs0
    have hsump : ((shuffle_sel r1 seqs0).1.sum : ℤ) = budget := by
      rw [hperm.sum_eq, hsum0]
    have hboundsp : ∀ L ∈ (shuffle_sel r1 seqs0).1, 1 ≤ L ∧ L + 96 ≤ n := by
      intro L hL
      have := hbounds0 L (hperm.mem_iff.mp hL)
      omega
    have hinit : Inv n ⟨∅, h0, [], (shuffle_sel r1 seqs0).2, noise⟩ := by
      constructor <;> simp_all
    obtain ⟨hinv, hmap⟩ := inject_episodes_inv n (shuffle_sel r1 seqs0).1 _ st hboundsp hinit h
    refine ⟨hinv, ?_⟩
    rw [hmap]
    simpa using hsump

theorem run_ticks_health_outside (impact prog : ℚ) (s L : ℕ) :
    ∀ (k i : ℕ) (st : InjState) (t : ℕ), ¬(s + i ≤ t ∧ t < s + i + k) →
      (run_ticks impact prog s L i k st).health t = st.health t := by
  intro k
  induction k with
  | zero => intro i st t _; simp [run_ticks]
  | succ k ih =>
      intro i st t ht
      rw [run_ticks, ih _ _ _ (by omega)]
      simp only [setCol]
      rw [if_neg (by omega)]

theorem place_episode_health_outside (L s : ℕ) (r2 : List ℕ) (st : InjState) (t : ℕ)
    (ht : ¬(s ≤ t ∧ t < s + L)) :
    (place_episode L s r2 st).health t = st.health t := by
  simp only [place_episode]
  exact run_ticks_health_outside _ _ s L L 0 _ t (by omega)

theorem inject_episodes_marked_mono (n : ℕ) :
    ∀ (seqs : List ℕ) (st st' : InjState), inject_episodes n seqs st = some st' →
      st.marked ⊆ st'.marked := by
  intro seqs
  induction seqs with
  | nil =>
      intro st st' h
      rw [inject_episodes] at h
      simp only [Option.some.injEq] at h
      subst h
      exact Finset.Subset.refl _
  | cons L rest ih =>
      intro st st' h
      rw [inject_episodes] at h
      split at h
      · exact absurd h (by simp)
      · rename_i s r2 hfs
        refine Finset.Subset.trans ?_ (ih _ _ h)
        rw [place_episode_marked]
        exact Finset.subset_union_left

theorem inject_episodes_health_outside (n : ℕ) :
    ∀ (seqs : List ℕ) (st st' : InjState), inject_episodes n seqs st = some st' →
      ∀ t, t ∉ st'.marked → st'.health t = st.health t := by
  intro seqs
  induction seqs with
  | nil =>
      intro st st' h t _
      rw [inject_episodes] at h
      simp only [Option.some.injEq] at h
      subst h
      rfl
  | cons L rest ih =>
      intro st st' h t ht
      rw [inject_episodes] at h
      split at h
      · exact absurd h (by simp)
      · rename_i s r2 hfs
        rw [ih _ _ h t ht]
        refine place_episode_health_outside L s r2 st t ?_
        intro hcore
        refine ht (inject_episodes_marked_mono n rest _ _ h ?_)
        rw [place_episode_marked, Finset.mem_union, Finset.mem_Ico]
        exact Or.inr hcore

/-- Outside the marked anomaly rows the injector leaves the health column
untouched, so it still holds the clipped noised value it started with. -/
theorem introduce_anomalies_core_health_outside (n : ℕ) (budget : ℤ) (rand : List ℕ)
    (noise : List ℚ) (h0 : ℕ → ℚ) (st : InjState)
    (h : introduce_anomalies_core n budget rand noise h0 = some st) :
    ∀ t, t ∉ st.marked → st.health t = h0 t := by
  rw [introduce_anomalies_core] at h
  split at h
  · exact absurd h (by simp)
  · exact fun t ht => inject_episodes_health_outside n _ _ st h t ht

/-- Every marked row sits inside some placed episode core, and all cores
start at index at least 48; hence the first 48 rows are never anomalous. -/
theorem inv_marked_ge_48 (n : ℕ) (st : InjState) (hinv : Inv n st) :
    ∀ t ∈ st.marked, 48 ≤ t := by
  intro t ht
  obtain ⟨p, hp, hb⟩ := hinv.marked_cores t ht
  have := (hinv.range p hp).1
  omega

theorem introduce_anomalies_spec (n : ℕ) (pct : ℚ) (rand : List ℕ) (noise : List ℚ)
    (h0 : ℕ → ℚ) (st : InjState) (hn : 144 ≤ n) (hp : 0 ≤ pct)
    (hh : ∀ i, 0 ≤ h0 i ∧ h0 i ≤ 100)
    (h : introduce_anomalies n pct rand noise h0 = some st) :
    Inv n st ∧ ((st.placed.map Prod.snd).sum : ℤ) =
      (if intTrunc ((n : ℚ) * pct) = 0 then 12 else intTrunc ((n : ℚ) * pct)) := by
  have ht0 : 0 ≤ intTrunc ((n : ℚ) * pct) := by
    have hnn : 0 ≤ (n : ℚ) * pct := mul_nonneg (by positivity) hp
    rw [intTrunc, if_neg (not_lt.mpr hnn)]
    exact Int.floor_nonneg.mpr hnn
  rw [introduce_anomalies] at h
  refine introduce_anomalies_core_spec n _ rand noise h0 st hn ?_ hh h
  split <;> omega

theorem intTrunc_coe_nat (m : ℕ) : intTrunc (m : ℚ) = m := by
  rw [intTrunc, if_neg (not_lt.mpr (by positivity))]
  exact_mod_cast Int.floor_natCast m

theorem inject_episodes_health01 (n : ℕ) :
    ∀ (seqs : List ℕ) (st st' : InjState), inject_episodes n seqs st = some st' →
      (∀ j, 0 ≤ st.health j ∧ st.health j ≤ 100) →
      ∀ j, 0 ≤ st'.health j ∧ st'.health j ≤ 100 := by
  intro seqs
  induction seqs with
  | nil =>
      intro st st' h hh
      rw [inject_episodes] at h
      simp only [Option.some.injEq] at h
      subst h
      exact hh
  | cons L rest ih =>
      intro st st' h hh
      rw [inject_episodes] at h
      split at h
      · exact absurd h (by simp)
      · rename_i s r2 hfs
        exact ih _ _ h (place_episode_health01 L s r2 st hh)

theorem introduce_anomalies_health01 (n : ℕ) (pct : ℚ) (rand : List ℕ) (noise : List ℚ)
    (h0 : ℕ → ℚ) (st : InjState)
    (h : introduce_anomalies n pct rand noise h0 = some st)
    (hh : ∀ i, 0 ≤ h0 i ∧ h0 i ≤ 100) :
    ∀ j, 0 ≤ st.health j ∧ st.health j ≤ 100 := by
  rw [introduce_anomalies, introduce_anomalies_core] at h
  split at h
  · exact absurd h (by simp)
  · exact inject_episodes_health01 n _ _ st h hh

theorem introduce_anomalies_health_outside (n : ℕ) (pct : ℚ) (rand : List ℕ)
    (noise : List ℚ) (h0 : ℕ → ℚ) (st : InjState)
    (h : introduce_anomalies n pct rand noise h0 = some st) :
    ∀ t, t ∉ st.marked → st.health t = h0 t := by
  rw [introduce_anomalies] at h
  exact introduce_anomalies_core_health_outside n _ rand noise h0 st h

/-- Destructing a successful run of the full pipeline into its injector run
and the column-level descriptions of the output. -/
theorem generate_dataset_some (n : ℕ) (pct : ℚ) (mpD : List ℕ)
    (dayD toolD hNoise : ℕ → ℚ) (rand : List ℕ) (sevNoise : List ℚ) (ds : Dataset)
    (h : generate_dataset n pct mpD dayD toolD hNoise rand sevNoise = some ds) :
    ∃ st, introduce_anomalies n pct rand sevNoise
        (fun i => clip01 (health_at (maintenance_points mpD) total_machine_hours_at i +
          hNoise i)) = some st ∧
      ds.total_machine_hours = total_machine_hours_at ∧
      ds.machine_hours_today = machine_hours_today_at dayD ∧
      ds.tool_usage_min = tool_usage_at toolD ∧
      ds.health_pre_noise = health_at (maintenance_points mpD) total_machine_hours_at ∧
      ds.machine_health_score = st.health ∧
      ds.days_to_maintenance = days_at (maintenance_points mpD) total_machine_hours_at ∧
      ds.marked = st.marked ∧ ds.placed = st.placed := by
  rw [generate_dataset] at h
  split at h
  · exact absurd h (by simp)
  · rename_i st hst
    refine ⟨st, hst, ?_⟩
    simp only [Option.some.injEq] at h
    subst h
    simp

theorem generate_dataset_isSome (n : ℕ) (pct : ℚ) (mpD : List ℕ)
    (dayD toolD hNoise : ℕ → ℚ) (rand : List ℕ) (sevNoise : List ℚ) :
    (generate_dataset n pct mpD dayD toolD hNoise rand sevNoise).isSome =
      (introduce_anomalies n pct rand sevNoise
        (fun i => clip01 (health_at (maintenance_points mpD) total_machine_hours_at i +
          hNoise i))).isSome := by
  rw [generate_dataset]
  split <;> simp_all

theorem sample_run_A_isSome : sample_run_A.isSome = true := by
  rw [sample_run_A, generate_dataset_isSome, introduce_anomalies]
  norm_num [intTrunc]
  decide

theorem sample_run_A20_isSome : sample_run_A20.isSome = true := by
  rw [sample_run_A20, generate_dataset_isSome, introduce_anomalies]
  norm_num [intTrunc]
  decide

theorem sample_run_B_isSome : sample_run_B.isSome = true := by
  rw [sample_run_B, generate_dataset_isSome, introduce_anomalies]
  rw [show (((300 : ℕ) : ℚ) * (7 / 300)) = ((7 : ℕ) : ℚ) by norm_num, intTrunc_coe_nat]
  norm_num
  decide

theorem sample_run_C_isSome : sample_run_C.isSome = true := by
  rw [sample_run_C, generate_dataset_isSome, introduce_anomalies]
  rw [show (((600 : ℕ) : ℚ) * (1 / 100)) = ((6 : ℕ) : ℚ) by norm_num, intTrunc_coe_nat]
  norm_num
  decide

theorem sample_run_D_isSome : sample_run_D.isSome = true := by
  rw [sample_run_D, generate_dataset_isSome, introduce_anomalies]
  norm_num [intTrunc]
  decide

theorem sample_run_E_isSome : sample_run_E.isSome = true := by
  rw [sample_run_E, generate_dataset_isSome, introduce_anomalies]
  norm_num [intTrunc]
  decide

/-! ## Claim theorems -/

/-- Claim C4: for every row of the final output table, `machine_health_score`
lies in the closed interval `[0, 100]`: the post-pass noise step clips to
`[0, 100]` and every anomaly health penalty re-clamps the value into
`[0, 100]`. -/
theorem c4_health_in_range (n : ℕ) (pct : ℚ) (mpD : List ℕ)
    (dayD toolD hNoise : ℕ → ℚ) (rand : List ℕ) (sevNoise : List ℚ) (ds : Dataset)
    (hg : generate_dataset n pct mpD dayD toolD hNoise rand sevNoise = some ds) :
    ∀ i, 0 ≤ ds.machine_health_score i ∧ ds.machine_health_score i ≤ 100 := by
  obtain ⟨st, hintro, htot, htoday, htool, hpre, hscore, hdays, hmark, hplace⟩ :=
    generate_dataset_some n pct mpD dayD toolD hNoise rand sevNoise ds hg
  rw [hscore]
  exact introduce_anomalies_health01 n pct rand sevNoise _ st hintro
    (fun i => clip01_mem _)

/-- Claim C5: in every generated dataset, `total_machine_hours` increases by
exactly 1 per hourly row, starting from the base 5000 (row `i` holds
`5000 + (i + 1)`, the base having been incremented once before the first
store). -/
theorem c5_total_hours (n : ℕ) (pct : ℚ) (mpD : List ℕ)
    (dayD toolD hNoise : ℕ → ℚ) (rand : List ℕ) (sevNoise : List ℚ) (ds : Dataset)
    (hg : generate_dataset n pct mpD dayD toolD hNoise rand sevNoise = some ds) :
    (∀ i, ds.total_machine_hours (i + 1) = ds.total_machine_hours i + 1) ∧
    (∀ i, ds.total_machine_hours i = 5000 + ((i : ℚ) + 1)) := by
  obtain ⟨st, hintro, htot, htoday, htool, hpre, hscore, hdays, hmark, hplace⟩ :=
    generate_dataset_some n pct mpD dayD toolD hNoise rand sevNoise ds hg
  rw [htot]
  constructor
  · intro i
    exact total_machine_hours_succ i
  · intro i
    rw [total_machine_hours_closed]
    ring

/-- Claim C9: `tool_usage_min` starts at 0 and, at each later row, resets to
0 when the previous value exceeded 4000 and otherwise grows by the
uniform(10, 20) draw; in particular a value above 4000 is followed by 0 at
the next row. -/
theorem c9_tool_usage (n : ℕ) (pct : ℚ) (mpD : List ℕ)
    (dayD toolD hNoise : ℕ → ℚ) (rand : List ℕ) (sevNoise : List ℚ) (ds : Dataset)
    (hg : generate_dataset n pct mpD dayD toolD hNoise rand sevNoise = some ds) :
    ds.tool_usage_min 0 = 0 ∧
    (∀ i, 4000 < ds.tool_usage_min i → ds.tool_usage_min (i + 1) = 0) ∧
    (∀ i, ds.tool_usage_min i ≤ 4000 →
      ds.tool_usage_min (i + 1) = ds.tool_usage_min i + toolD (i + 1)) := by
  obtain ⟨st, hintro, htot, htoday, htool, hpre, hscore, hdays, hmark, hplace⟩ :=
    generate_dataset_some n pct mpD dayD toolD hNoise rand sevNoise ds hg
  rw [htool]
  refine ⟨rfl, ?_, ?_⟩
  · intro i hgt
    rw [tool_usage_at, if_pos hgt]
  · intro i hle
    rw [tool_usage_at, if_neg (not_lt.mpr hle)]

/-- Claim C8 (amended): `days_to_maintenance` is the step function of the
pre-noise, pre-anomaly internal health value of the same row (and 30 at
maintenance checkpoints) — not of the final recorded
`machine_health_score`. -/
theorem c8_days_step (n : ℕ) (pct : ℚ) (mpD : List ℕ)
    (dayD toolD hNoise : ℕ → ℚ) (rand : List ℕ) (sevNoise : List ℚ) (ds : Dataset)
    (hg : generate_dataset n pct mpD dayD toolD hNoise rand sevNoise = some ds) :
    ∀ i, ds.days_to_maintenance i =
      if i ∈ maintenance_points mpD then 30 else step_days (ds.health_pre_noise i) := by
  obtain ⟨st, hintro, htot, htoday, htool, hpre, hscore, hdays, hmark, hplace⟩ :=
    generate_dataset_some n pct mpD dayD toolD hNoise rand sevNoise ds hg
  intro i
  rw [hdays, hpre, days_at]

/-- Claim C1 (amended): at a maintenance checkpoint row `t`,
`days_to_maintenance` is forced to 30, but the recorded pre-noise
`machine_health_score` at `t` is the decayed value, strictly below 100: the
reset of the internal health to 100.0 only takes effect from row `t + 1`. -/
theorem c1_checkpoint_days (n : ℕ) (pct : ℚ) (mpD : List ℕ)
    (dayD toolD hNoise : ℕ → ℚ) (rand : List ℕ) (sevNoise : List ℚ) (ds : Dataset)
    (t : ℕ)
    (hg : generate_dataset n pct mpD dayD toolD hNoise rand sevNoise = some ds)
    (ht : t ∈ maintenance_points mpD) :
    ds.days_to_maintenance t = 30 ∧ ds.health_pre_noise t < 100 := by
  obtain ⟨st, hintro, htot, htoday, htool, hpre, hscore, hdays, hmark, hplace⟩ :=
    generate_dataset_some n pct mpD dayD toolD hNoise rand sevNoise ds hg
  constructor
  · rw [hdays, days_at, if_pos ht]
  · rw [hpre]
    have h600 := maintenance_points_ge_600 mpD t ht
    obtain ⟨k, rfl⟩ : ∃ k, t = k + 1 := ⟨t - 1, by omega⟩
    exact health_at_lt_100 _ k

/-- Claim C10: when every placement succeeds, the number of rows flagged
anomalous equals `int(n * pct)` when that is nonzero and exactly 12 when it
is zero; the greedy partition consumes the budget exactly and the rejection
test prevents double-marking. -/
theorem c10_anomaly_count (n : ℕ) (pct : ℚ) (mpD : List ℕ)
    (dayD toolD hNoise : ℕ → ℚ) (rand : List ℕ) (sevNoise : List ℚ) (ds : Dataset)
    (hg : generate_dataset n pct mpD dayD toolD hNoise rand sevNoise = some ds)
    (hn : 144 ≤ n) (hp : 0 ≤ pct) :
    (ds.marked.card : ℤ) =
      if intTrunc ((n : ℚ) * pct) = 0 then 12 else intTrunc ((n : ℚ) * pct) := by
  obtain ⟨st, hintro, htot, htoday, htool, hpre, hscore, hdays, hmark, hplace⟩ :=
    generate_dataset_some n pct mpD dayD toolD hNoise rand sevNoise ds hg
  obtain ⟨hinv, hsum⟩ := introduce_anomalies_spec n pct rand sevNoise _ st hn hp
    (fun i => clip01_mem _) hintro
  rw [hmark, hinv.card_eq]
  exact hsum

/-- Claim C7 (amended): the flagged count is at least `int(pct * n)` in every
completed run, and the absolute minimum of 12 rows is guaranteed exactly when
the percentage budget truncates to 0 (for `0 < int(pct * n) < 12` the count
equals `int(pct * n)` and is below 12). -/
theorem c7_anomaly_lower_bounds (n : ℕ) (pct : ℚ) (mpD : List ℕ)
    (dayD toolD hNoise : ℕ → ℚ) (rand : List ℕ) (sevNoise : List ℚ) (ds : Dataset)
    (hg : generate_dataset n pct mpD dayD toolD hNoise rand sevNoise = some ds)
    (hn : 144 ≤ n) (hp : 0 ≤ pct) :
    intTrunc ((n : ℚ) * pct) ≤ (ds.marked.card : ℤ) ∧
    (intTrunc ((n : ℚ) * pct) = 0 → 12 ≤ (ds.marked.card : ℤ)) := by
  obtain ⟨st, hintro, htot, htoday, htool, hpre, hscore, hdays, hmark, hplace⟩ :=
    generate_dataset_some n pct mpD dayD toolD hNoise rand sevNoise ds hg
  obtain ⟨hinv, hsum⟩ := introduce_anomalies_spec n pct rand sevNoise _ st hn hp
    (fun i => clip01_mem _) hintro
  have hcard : (ds.marked.card : ℤ) =
      if intTrunc ((n : ℚ) * pct) = 0 then 12 else intTrunc ((n : ℚ) * pct) := by
    rw [hmark, hinv.card_eq]
    exact hsum
  constructor
  · rw [hcard]
    split_ifs with h0
    · omega
    · exact le_refl _
  · intro h0
    rw [hcard, if_pos h0]

/-- Claim C6: in every run in which placement completes, the injected
episodes are pairwise non-overlapping and separated by at least 48 rows, and
the 48-row buffer on each side of every episode contains no anomalous row. -/
theorem c6_episode_buffer (n : ℕ) (pct : ℚ) (mpD : List ℕ)
    (dayD toolD hNoise : ℕ → ℚ) (rand : List ℕ) (sevNoise : List ℚ) (ds : Dataset)
    (hg : generate_dataset n pct mpD dayD toolD hNoise rand sevNoise = some ds)
    (hn : 144 ≤ n) (hp : 0 ≤ pct) :
    ds.placed.Pairwise (fun p q =>
      Disjoint (Finset.Ico p.1 (p.1 + p.2)) (Finset.Ico q.1 (q.1 + q.2))) ∧
    ds.placed.Pairwise EpisodeSep ∧
    (∀ p ∈ ds.placed, ∀ t ∈ ds.marked,
      p.1 - 48 ≤ t → t < p.1 + p.2 + 48 → p.1 ≤ t ∧ t < p.1 + p.2) := by
  obtain ⟨st, hintro, htot, htoday, htool, hpre, hscore, hdays, hmark, hplace⟩ :=
    generate_dataset_some n pct mpD dayD toolD hNoise rand sevNoise ds hg
  obtain ⟨hinv, hsum⟩ := introduce_anomalies_spec n pct rand sevNoise _ st hn hp
    (fun i => clip01_mem _) hintro
  rw [hmark, hplace]
  refine ⟨?_, hinv.sep, hinv.buffer⟩
  refine hinv.sep.imp ?_
  intro p q hpq
  rw [Finset.disjoint_left]
  intro a ha hb
  rw [Finset.mem_Ico] at ha hb
  rcases hpq with h | h <;> omega

/-- Claim C3 (amended): fixing the NumPy seed fixes only the NumPy draws; the
tool-usage, daily-hours, maintenance-point and injector draws come from the
unseeded `random` module, and two runs sharing every seeded stream but
differing in the first unseeded tool-usage draw already produce different
outputs. -/
theorem c3_seed_not_sufficient (n : ℕ) (pct : ℚ) (mpD : List ℕ)
    (dayD hNoise : ℕ → ℚ) (rand : List ℕ) (sevNoise : List ℚ)
    (toolD1 toolD2 : ℕ → ℚ) (ds1 ds2 : Dataset)
    (h1 : generate_dataset n pct mpD dayD toolD1 hNoise rand sevNoise = some ds1)
    (h2 : generate_dataset n pct mpD dayD toolD2 hNoise rand sevNoise = some ds2)
    (hne : toolD1 1 ≠ toolD2 1) :
    ds1.tool_usage_min 1 ≠ ds2.tool_usage_min 1 := by
  obtain ⟨st1, hintro1, htot1, htoday1, htool1, hrest1⟩ :=
    generate_dataset_some n pct mpD dayD toolD1 hNoise rand sevNoise ds1 h1
  obtain ⟨st2, hintro2, htot2, htoday2, htool2, hrest2⟩ :=
    generate_dataset_some n pct mpD dayD toolD2 hNoise rand sevNoise ds2 h2
  rw [htool1, htool2]
  simpa [tool_usage_at] using hne

/-- Claim C1 counterexample: with all checkpoint draws 0 the checkpoints are
rows 600, 1320 and 2040; at the checkpoint row 600 the recorded pre-noise
health is the decayed value `100 - 600 * 1001/50000 = 87.988`, not 100.0,
while `days_to_maintenance` is indeed forced to 30. -/
theorem c1_counterexample :
    600 ∈ maintenance_points [0, 0, 0, 0, 0, 0] ∧
    health_at (maintenance_points [0, 0, 0, 0, 0, 0]) total_machine_hours_at 600 ≠ 100 ∧
    days_at (maintenance_points [0, 0, 0, 0, 0, 0]) total_machine_hours_at 600 = 30 := by
  have hmp : maintenance_points [0, 0, 0, 0, 0, 0] = [600, 1320, 2040] := by decide
  have hmem : 600 ∈ maintenance_points [0, 0, 0, 0, 0, 0] := by decide
  refine ⟨hmem, ?_, ?_⟩
  · have hclosed : health_at (maintenance_points [0, 0, 0, 0, 0, 0])
        total_machine_hours_at 600 = 100 - (600 : ℚ) * (1001 / 50000) := by
      refine health_at_closed _ 600 ?_ (by norm_num)
      intro j hj
      rw [hmp]
      simp only [List.mem_cons, List.not_mem_nil, or_false]
      omega
    rw [hclosed]
    norm_num
  · rw [days_at, if_pos hmem]

/-- Claim C3 counterexample: two runs sharing every NumPy (seed-derived)
noise stream and all integer draws, but whose unseeded
`random.uniform(10, 20)` tool-usage draws differ (10 vs 20 — both legal
values of that call), produce different output tables already at row 1 of
`tool_usage_min`. -/
theorem c3_counterexample :
    sample_run_A.map (fun ds => ds.tool_usage_min 1) ≠
      sample_run_A20.map (fun ds => ds.tool_usage_min 1) := by
  have hA : generate_dataset 144 0 [0, 0, 0, 0, 0, 0] (fun _ => 10) (fun _ => 10)
      (fun _ => 0) [6, 0, 0, 0] [] = some (sample_run_A.get sample_run_A_isSome) := by
    rw [← sample_run_A]
    exact (Option.some_get _).symm
  have hA20 : generate_dataset 144 0 [0, 0, 0, 0, 0, 0] (fun _ => 10) (fun _ => 20)
      (fun _ => 0) [6, 0, 0, 0] [] = some (sample_run_A20.get sample_run_A20_isSome) := by
    rw [← sample_run_A20]
    exact (Option.some_get _).symm
  obtain ⟨st1, hintro1, htot1, htoday1, htool1, hrest1⟩ :=
    generate_dataset_some _ _ _ _ _ _ _ _ _ hA
  obtain ⟨st2, hintro2, htot2, htoday2, htool2, hrest2⟩ :=
    generate_dataset_some _ _ _ _ _ _ _ _ _ hA20
  rw [← Option.some_get sample_run_A_isSome, ← Option.some_get sample_run_A20_isSome]
  simp only [Option.map_some', ne_eq, Option.some.injEq]
  rw [htool1, htool2]
  simp only [tool_usage_at]
  norm_num

/-- Claim C7 counterexample: at `n = 600`, `pct = 1/100` the percentage
budget truncates to 6 and the completed run flags exactly 6 rows — fewer
than the claimed unconditional minimum of 12. -/
theorem c7_counterexample :
    sample_run_C.map (fun ds => ds.marked.card) = some 6 ∧ ¬(12 ≤ (6 : ℕ)) := by
  refine ⟨?_, by norm_num⟩
  have hC : generate_dataset 600 (1 / 100) [0, 0, 0, 0, 0, 0] (fun _ => 10) (fun _ => 10)
      (fun _ => 0) [0, 0, 0, 0] [] = some (sample_run_C.get sample_run_C_isSome) := by
    rw [← sample_run_C]
    exact (Option.some_get _).symm
  obtain ⟨st, hintro, htot, htoday, htool, hpre, hscore, hdays, hmark, hplace⟩ :=
    generate_dataset_some _ _ _ _ _ _ _ _ _ hC
  obtain ⟨hinv, hsum⟩ := introduce_anomalies_spec _ _ _ _ _ _ (by norm_num) (by norm_num)
    (fun i => clip01_mem _) hintro
  have hbud : intTrunc (((600 : ℕ) : ℚ) * (1 / 100)) = ((6 : ℕ) : ℤ) := by
    rw [show (((600 : ℕ) : ℚ) * (1 / 100)) = ((6 : ℕ) : ℚ) by norm_num, intTrunc_coe_nat]
  rw [hbud, if_neg (by norm_num)] at hsum
  have hcard : (sample_run_C.get sample_run_C_isSome).marked.card = 6 := by
    have h6 : ((sample_run_C.get sample_run_C_isSome).marked.card : ℤ) = ((6 : ℕ) : ℤ) := by
      rw [hmark, hinv.card_eq]
      exact hsum
    exact_mod_cast h6
  rw [← Option.some_get sample_run_C_isSome]
  simp only [Option.map_some', Option.some.injEq]
  exact hcard

/-- Claim C8 counterexample: in run D a −25 health-noise draw at row 1 makes
the final `machine_health_score` at row 1 about 74.98, whose step value is
20, while the recorded `days_to_maintenance` at row 1 is 30 (computed from
the pre-noise health 99.98): the final table's days column is not the step
function of the final table's health column. -/
theorem c8_counterexample :
    (sample_run_D.get sample_run_D_isSome).days_to_maintenance 1 = 30 ∧
    step_days ((sample_run_D.get sample_run_D_isSome).machine_health_score 1) ≠ 30 := by
  have hD : generate_dataset 150 0 [0, 0, 0, 0, 0, 0] (fun _ => 10) (fun _ => 10)
      (fun i => if i = 1 then (-25 : ℚ) else 0) [6, 0, 0, 0] [] =
      some (sample_run_D.get sample_run_D_isSome) := by
    rw [← sample_run_D]
    exact (Option.some_get _).symm
  obtain ⟨st, hintro, htot, htoday, htool, hpre, hscore, hdays, hmark, hplace⟩ :=
    generate_dataset_some _ _ _ _ _ _ _ _ _ hD
  obtain ⟨hinv, hsum⟩ := introduce_anomalies_spec _ _ _ _ _ _ (by norm_num) (by norm_num)
    (fun i => clip01_mem _) hintro
  have h0mp : (0 : ℕ) ∉ maintenance_points [0, 0, 0, 0, 0, 0] := by decide
  have h1mp : (1 : ℕ) ∉ maintenance_points [0, 0, 0, 0, 0, 0] := by decide
  have hh1 : health_at (maintenance_points [0, 0, 0, 0, 0, 0]) total_machine_hours_at 1 =
      100 - 1001 / 50000 := by
    rw [health_at_succ, if_neg h0mp,
      show health_at (maintenance_points [0, 0, 0, 0, 0, 0]) total_machine_hours_at 0 = 100
        from rfl]
    exact max_eq_right (by norm_num)
  constructor
  · rw [hdays, days_at, if_neg h1mp, hh1]
    norm_num [step_days]
  · have h1marked : (1 : ℕ) ∉ st.marked := by
      intro hmem
      have := inv_marked_ge_48 150 st hinv 1 hmem
      omega
    have hout := introduce_anomalies_health_outside _ _ _ _ _ _ hintro 1 h1marked
    rw [hscore, hout]
    simp only []
    rw [hh1]
    norm_num [clip01, step_days]

/-- Claim C2: the placement loop of `introduce_anomalies` has no retry cap
and no failure signal.  With the default percentage 15% on 240 rows the
budget splits into episodes of lengths 6 and 30; after the 6-row episode
lands at row 110, *every* admissible start 48..162 for the 30-row episode is
rejected (its 48-expanded window always meets rows 110–115), so the `while`
loop redraws forever.  The first conjunct shows the supplied 115 raw draws
exhaust the entire admissible range; the run still yields no result (in the
source it would hang rather than raise an error). -/
theorem c2_unbounded_rejection :
    ((List.range 115).map (fun d => randint 48 162 d) = List.range' 48 115) ∧
    introduce_anomalies 240 (15 / 100) ([0, 24, 0, 0, 0, 62, 0] ++ List.range 115) []
      (fun _ => 50) = none := by
  constructor
  · decide
  · rw [introduce_anomalies]
    rw [show intTrunc (((240 : ℕ) : ℚ) * (15 / 100)) = ((36 : ℕ) : ℤ) from by
      rw [show (((240 : ℕ) : ℚ) * (15 / 100)) = ((36 : ℕ) : ℚ) by norm_num, intTrunc_coe_nat]]
    norm_num
    rfl

/-! ## Witnesses -/

theorem c4_health_in_range_witness :
    0 ≤ (sample_run_A.get sample_run_A_isSome).machine_health_score 50 ∧
      (sample_run_A.get sample_run_A_isSome).machine_health_score 50 ≤ 100 :=
  c4_health_in_range 144 0 [0, 0, 0, 0, 0, 0] (fun _ => 10) (fun _ => 10) (fun _ => 0)
    [6, 0, 0, 0] [] (sample_run_A.get sample_run_A_isSome)
    (by rw [← sample_run_A]; exact (Option.some_get _).symm) 50

theorem c5_total_hours_witness :
    (sample_run_A.get sample_run_A_isSome).total_machine_hours 4 =
      (sample_run_A.get sample_run_A_isSome).total_machine_hours 3 + 1 ∧
    (sample_run_A.get sample_run_A_isSome).total_machine_hours 3 = 5000 + ((3 : ℚ) + 1) := by
  have h := c5_total_hours 144 0 [0, 0, 0, 0, 0, 0] (fun _ => 10) (fun _ => 10) (fun _ => 0)
    [6, 0, 0, 0] [] (sample_run_A.get sample_run_A_isSome)
    (by rw [← sample_run_A]; exact (Option.some_get _).symm)
  exact ⟨h.1 3, h.2 3⟩

theorem c9_tool_usage_witness :
    (sample_run_A.get sample_run_A_isSome).tool_usage_min 0 = 0 ∧
    (sample_run_A.get sample_run_A_isSome).tool_usage_min 1 =
      (sample_run_A.get sample_run_A_isSome).tool_usage_min 0 + 10 := by
  have h := c9_tool_usage 144 0 [0, 0, 0, 0, 0, 0] (fun _ => 10) (fun _ => 10) (fun _ => 0)
    [6, 0, 0, 0] [] (sample_run_A.get sample_run_A_isSome)
    (by rw [← sample_run_A]; exact (Option.some_get _).symm)
  refine ⟨h.1, ?_⟩
  have h2 := h.2.2 0 (by rw [h.1]; norm_num)
  simpa using h2

theorem c8_days_step_witness :
    (sample_run_D.get sample_run_D_isSome).days_to_maintenance 1 =
      if 1 ∈ maintenance_points [0, 0, 0, 0, 0, 0] then 30
      else step_days ((sample_run_D.get sample_run_D_isSome).health_pre_noise 1) :=
  c8_days_step 150 0 [0, 0, 0, 0, 0, 0] (fun _ => 10) (fun _ => 10)
    (fun i => if i = 1 then (-25 : ℚ) else 0) [6, 0, 0, 0] []
    (sample_run_D.get sample_run_D_isSome)
    (by rw [← sample_run_D]; exact (Option.some_get _).symm) 1

theorem c1_checkpoint_days_witness :
    (sample_run_E.get sample_run_E_isSome).days_to_maintenance 600 = 30 ∧
    (sample_run_E.get sample_run_E_isSome).health_pre_noise 600 < 100 :=
  c1_checkpoint_days 720 0 [0, 0, 0, 0, 0, 0] (fun _ => 10) (fun _ => 10) (fun _ => 0)
    [6, 0, 0, 0] [] (sample_run_E.get sample_run_E_isSome) 600
    (by rw [← sample_run_E]; exact (Option.some_get _).symm) (by decide)

theorem c10_anomaly_count_witness :
    (((sample_run_A.get sample_run_A_isSome).marked.card : ℤ)) = 12 := by
  have h := c10_anomaly_count 144 0 [0, 0, 0, 0, 0, 0] (fun _ => 10) (fun _ => 10)
    (fun _ => 0) [6, 0, 0, 0] [] (sample_run_A.get sample_run_A_isSome)
    (by rw [← sample_run_A]; exact (Option.some_get _).symm) (by norm_num) (by norm_num)
  rwa [show intTrunc (((144 : ℕ) : ℚ) * 0) = 0 from by norm_num [intTrunc], if_pos rfl] at h

theorem c7_anomaly_lower_bounds_witness :
    intTrunc (((300 : ℕ) : ℚ) * (7 / 300)) ≤
      (((sample_run_B.get sample_run_B_isSome).marked.card : ℤ)) ∧
    (intTrunc (((300 : ℕ) : ℚ) * (7 / 300)) = 0 →
      12 ≤ (((sample_run_B.get sample_run_B_isSome).marked.card : ℤ))) :=
  c7_anomaly_lower_bounds 300 (7 / 300) [0, 0, 0, 0, 0, 0] (fun _ => 10) (fun _ => 10)
    (fun _ => 0) [0, 0, 0, 0, 0, 0, 0, 54] [] (sample_run_B.get sample_run_B_isSome)
    (by rw [← sample_run_B]; exact (Option.some_get _).symm) (by norm_num) (by norm_num)

theorem c6_episode_buffer_witness :
    (sample_run_B.get sample_run_B_isSome).placed.Pairwise (fun p q =>
      Disjoint (Finset.Ico p.1 (p.1 + p.2)) (Finset.Ico q.1 (q.1 + q.2))) ∧
    (sample_run_B.get sample_run_B_isSome).placed.Pairwise EpisodeSep ∧
    (∀ p ∈ (sample_run_B.get sample_run_B_isSome).placed,
      ∀ t ∈ (sample_run_B.get sample_run_B_isSome).marked,
      p.1 - 48 ≤ t → t < p.1 + p.2 + 48 → p.1 ≤ t ∧ t < p.1 + p.2) :=
  c6_episode_buffer 300 (7 / 300) [0, 0, 0, 0, 0, 0] (fun _ => 10) (fun _ => 10)
    (fun _ => 0) [0, 0, 0, 0, 0, 0, 0, 54] [] (sample_run_B.get sample_run_B_isSome)
    (by rw [← sample_run_B]; exact (Option.some_get _).symm) (by norm_num) (by norm_num)

theorem c3_seed_not_sufficient_witness :
    (sample_run_A.get sample_run_A_isSome).tool_usage_min 1 ≠
      (sample_run_A20.get sample_run_A20_isSome).tool_usage_min 1 :=
  c3_seed_not_sufficient 144 0 [0, 0, 0, 0, 0, 0] (fun _ => 10) (fun _ => 0) [6, 0, 0, 0]
    [] (fun _ => 10) (fun _ => 20) (sample_run_A.get sample_run_A_isSome)
    (sample_run_A20.get sample_run_A20_isSome)
    (by rw [← sample_run_A]; exact (Option.some_get _).symm)
    (by rw [← sample_run_A20]; exact (Option.some_get _).symm) (by norm_num)

end PredMaint
